import Mathlib

/-! # The Wi-Fi credentials header of the Remal e-paper MQTT dashboard

`src/WifiCreds_example.h` is a C header made of an include guard and two
object-like `#define`s.  Its meaning is what the C preprocessor does with it,
so the development below embeds

* the text of the header, line by line (`headerSource`);
* the early translation phases that turn that text into logical lines:
  line splicing, comment removal, splitting into lines, recognising the
  directive on each line and tokenising the rest (`parseSource`);
* the execution of the directives over a preprocessor state: the definitions
  in force, the tokens handed on to the compiler and the diagnostics issued
  (`preprocessFile`, `includeHeader`);
* the replacement of identifiers by their definitions, with rescanning
  (`expandLine`).

Only the directives `#define` (object-like), `#undef`, `#ifdef`, `#ifndef`,
`#else` and `#endif` are executed; any other directive is recorded as
unsupported and otherwise skipped.  The header uses `#ifndef`, `#define` and
`#endif` only.  A `#define` of a name that is already defined with another
replacement list is diagnosed and the new definition takes effect, which is
what the GCC-based toolchains used for this firmware do.
-/

namespace WifiCreds

/-! ## The source text -/

/-- The lines of `src/WifiCreds_example.h`, verbatim; a tab is written `\t`. -/
def headerSource : List String :=
  [ "/**",
    " * @file        WifiCreds.h",
    " * ",
    " * @brief\t\tContains the Wi-Fi credentials for this project. Not uploaded to Git.",
    " *",
    "**/",
    "#ifndef _WIFI_CREDS_H_",
    "#define _WIFI_CREDS_H_",
    "",
    "",
    "/***************************************",
    " *   Wi-Fi Credentials",
    " ***************************************/",
    "#define WIFI_SSID\t\t\t\"Your SSID\"\t\t\t    // Your Wi-Fi SSID",
    "#define WIFI_PASS\t\t\t\"Your Password\"\t\t\t// Your Wi-Fi Password",
    "",
    "",
    "#endif /* _WIFI_CREDS_H_ */" ]

/-- The name of the include guard of the header. -/
def guardName : String := "_WIFI_CREDS_H_"

/-- The name of the network identifier constant. -/
def ssidName : String := "WIFI_SSID"

/-- The name of the network secret constant. -/
def passName : String := "WIFI_PASS"

/-! ## Preprocessing tokens -/

/-- Preprocessing tokens.  A string literal carries the characters between its
quotes as they are spelled in the source, and so does a character constant. -/
inductive Token where
  | ident (name : String)
  | str (text : String)
  | chr (text : String)
  | num (spelling : String)
  | punct (c : Char)
  deriving DecidableEq, Repr

/-- Horizontal white space. -/
def isBlank (c : Char) : Bool :=
  c = ' ' || c = '\t' || c = '\r' || c = Char.ofNat 11 || c = Char.ofNat 12

/-- Characters that may start an identifier. -/
def isIdentStart (c : Char) : Bool :=
  c.isAlpha || c = '_'

/-- Characters that may continue an identifier. -/
def isIdentChar (c : Char) : Bool :=
  c.isAlphanum || c = '_'

/-! ## Translation phases 1 to 3: splicing, comments, lines -/

/-- The characters of a file given by its lines: every line is ended by a
newline character. -/
def joinLines : List String → List Char
  | [] => []
  | l :: ls => l.toList ++ '\n' :: joinLines ls

/-- Line splicing: a backslash immediately followed by a newline is deleted. -/
def splice : List Char → List Char
  | [] => []
  | [c] => [c]
  | c :: d :: rest =>
      if c = '\\' ∧ d = '\n' then splice rest else c :: splice (d :: rest)

/-- Where the comment scanner is. -/
inductive ScanMode where
  | code
  | strLit
  | strEsc
  | chrLit
  | chrEsc
  | lineComment
  | blockComment
  deriving DecidableEq, Repr

/-- Comment removal.  Each comment is replaced by one space; a `//` comment
runs up to, and does not include, the end of its line; comment openers inside
string and character literals are ordinary characters. -/
def stripComments : ScanMode → List Char → List Char
  | _, [] => []
  | .code, [c] => [c]
  | .code, c :: d :: rest =>
      if c = '/' ∧ d = '*' then ' ' :: stripComments .blockComment rest
      else if c = '/' ∧ d = '/' then ' ' :: stripComments .lineComment rest
      else if c = '"' then c :: stripComments .strLit (d :: rest)
      else if c = '\'' then c :: stripComments .chrLit (d :: rest)
      else c :: stripComments .code (d :: rest)
  | .strLit, c :: rest =>
      if c = '\\' then c :: stripComments .strEsc rest
      else if c = '"' ∨ c = '\n' then c :: stripComments .code rest
      else c :: stripComments .strLit rest
  | .strEsc, c :: rest => c :: stripComments .strLit rest
  | .chrLit, c :: rest =>
      if c = '\\' then c :: stripComments .chrEsc rest
      else if c = '\'' ∨ c = '\n' then c :: stripComments .code rest
      else c :: stripComments .chrLit rest
  | .chrEsc, c :: rest => c :: stripComments .chrLit rest
  | .lineComment, c :: rest =>
      if c = '\n' then c :: stripComments .code rest
      else stripComments .lineComment rest
  | .blockComment, [_] => []
  | .blockComment, c :: d :: rest =>
      if c = '*' ∧ d = '/' then stripComments .code rest
      else stripComments .blockComment (d :: rest)

/-- Splitting at newline characters; `acc` holds the current line, reversed. -/
def splitLines : List Char → List Char → List (List Char)
  | acc, [] => if acc = [] then [] else [acc.reverse]
  | acc, c :: rest =>
      if c = '\n' then acc.reverse :: splitLines [] rest
      else splitLines (c :: acc) rest

/-! ## Tokenising a line -/

/-- Where the tokeniser is; the characters of the token being read are kept,
reversed, next to it. -/
inductive LexMode where
  | start
  | inIdent
  | inNum
  | inStr
  | inStrEsc
  | inChr
  | inChrEsc
  deriving DecidableEq, Repr

/-- The token that ends when the tokeniser leaves `mode` with `acc` read. -/
def flush (mode : LexMode) (acc : List Char) : List Token :=
  match mode with
  | .start => []
  | .inIdent => [.ident (String.mk acc.reverse)]
  | .inNum => [.num (String.mk acc.reverse)]
  | .inStr => [.str (String.mk acc.reverse)]
  | .inStrEsc => [.str (String.mk acc.reverse)]
  | .inChr => [.chr (String.mk acc.reverse)]
  | .inChrEsc => [.chr (String.mk acc.reverse)]

/-- The tokeniser at the start of a token, looking at `c`: the mode and the
characters read after `c`, and the tokens completed by `c` alone. -/
def startStep (c : Char) : LexMode × List Char × List Token :=
  if isIdentStart c then (.inIdent, [c], [])
  else if c.isDigit then (.inNum, [c], [])
  else if c = '"' then (.inStr, [], [])
  else if c = '\'' then (.inChr, [], [])
  else if isBlank c then (.start, [], [])
  else (.start, [], [.punct c])

/-- One step of the tokeniser. -/
def lexStep (mode : LexMode) (acc : List Char) (c : Char) :
    LexMode × List Char × List Token :=
  match mode with
  | .start => startStep c
  | .inIdent =>
      if isIdentChar c then (.inIdent, c :: acc, [])
      else
        let next := startStep c
        (next.1, next.2.1, flush .inIdent acc ++ next.2.2)
  | .inNum =>
      if isIdentChar c ∨ c = '.' then (.inNum, c :: acc, [])
      else
        let next := startStep c
        (next.1, next.2.1, flush .inNum acc ++ next.2.2)
  | .inStr =>
      if c = '\\' then (.inStrEsc, c :: acc, [])
      else if c = '"' then (.start, [], flush .inStr acc)
      else (.inStr, c :: acc, [])
  | .inStrEsc => (.inStr, c :: acc, [])
  | .inChr =>
      if c = '\\' then (.inChrEsc, c :: acc, [])
      else if c = '\'' then (.start, [], flush .inChr acc)
      else (.inChr, c :: acc, [])
  | .inChrEsc => (.inChr, c :: acc, [])

/-- The tokens of a run of characters, from the given tokeniser state. -/
def lexFrom : LexMode → List Char → List Char → List Token
  | mode, acc, [] => flush mode acc
  | mode, acc, c :: rest =>
      let next := lexStep mode acc c
      next.2.2 ++ lexFrom next.1 next.2.1 rest

/-- The tokens of a line. -/
def lexLine (cs : List Char) : List Token :=
  lexFrom .start [] cs

/-! ## Logical lines -/

/-- A logical line after directive recognition. -/
inductive Line where
  | ifndefLine (name : String)
  | ifdefLine (name : String)
  | elseLine
  | endifLine
  | defineLine (name : String) (body : List Token)
  | undefLine (name : String)
  | unsupported (word : String)
  | text (tokens : List Token)
  deriving DecidableEq, Repr

/-- Recognising the directive of a line.  A line whose first non-blank
character is `#` is a directive; the word after `#` selects it and, for the
directives that take a name, the identifier after the word is that name.  A
`#define` whose name is directly followed by `(` defines a function-like
name and is reported as unsupported, as is every directive that is not
modelled or that lacks its name. -/
def parseLine (cs : List Char) : Line :=
  match cs.dropWhile isBlank with
  | [] => .text []
  | c :: rest =>
      if c = '#' then
        let afterHash := rest.dropWhile isBlank
        let word := String.mk (afterHash.takeWhile isIdentChar)
        let args := (afterHash.dropWhile isIdentChar).dropWhile isBlank
        let name := String.mk (args.takeWhile isIdentChar)
        let tail := args.dropWhile isIdentChar
        let named : Bool := match args with
          | [] => false
          | a :: _ => isIdentStart a
        if word = "" then
          (if afterHash = [] then .text [] else .unsupported word)
        else if word = "else" then .elseLine
        else if word = "endif" then .endifLine
        else if word = "ifndef" then (if named then .ifndefLine name else .unsupported word)
        else if word = "ifdef" then (if named then .ifdefLine name else .unsupported word)
        else if word = "undef" then (if named then .undefLine name else .unsupported word)
        else if word = "define" then
          (if named ∧ tail.head? ≠ some '(' then .defineLine name (lexLine tail)
           else .unsupported word)
        else .unsupported word
      else .text (lexLine (c :: rest))

/-- The logical lines of a source file given by its lines. -/
def parseSource (src : List String) : List Line :=
  (splitLines [] (stripComments .code (splice (joinLines src)))).map parseLine

/-- The logical lines of the header. -/
def headerLines : List Line :=
  parseSource headerSource

/-! ## The preprocessor state -/

/-- The definitions in force: names with their replacement lists, the most
recent first. -/
abbrev Defs := List (String × List Token)

/-- The replacement list of a name, when it is defined. -/
def lookupDef (n : String) : Defs → Option (List Token)
  | [] => none
  | (k, body) :: rest => if k = n then some body else lookupDef n rest

/-- Whether a name is defined. -/
def isDefined (n : String) (defs : Defs) : Bool :=
  (lookupDef n defs).isSome

/-- The definitions without those of a name. -/
def eraseDef (n : String) : Defs → Defs
  | [] => []
  | (k, body) :: rest => if k = n then eraseDef n rest else (k, body) :: eraseDef n rest

/-- Diagnostics of the preprocessor. -/
inductive Diag where
  | redefined (name : String)
  | strayElse
  | strayEndif
  | unterminated
  | unsupported (word : String)
  | expansionTooDeep
  deriving DecidableEq, Repr

/-- The state of the preprocessor between two lines of a file: the definitions
in force, the tokens handed on to the compiler so far, and the diagnostics
issued so far. -/
structure PPState where
  defs : Defs
  output : List Token
  diags : List Diag
  deriving DecidableEq, Repr

/-- The state before anything has been processed. -/
def PPState.empty : PPState :=
  { defs := [], output := [], diags := [] }

/-- Recording a diagnostic. -/
def report (d : Diag) (st : PPState) : PPState :=
  { st with diags := st.diags ++ [d] }

/-! ## Replacement of defined names -/

/-- Joining the results of two replacements, when both have one. -/
def appendOpt (a b : Option (List Token)) : Option (List Token) :=
  match a, b with
  | some x, some y => some (x ++ y)
  | _, _ => none

/-- Replacement with rescanning.  An identifier that is defined and is not
being replaced already (`hide`) is replaced by its replacement list, which is
rescanned with that identifier added to `hide`; every other token stands for
itself.  Each nested replacement uses one unit of `fuel`; the result is `none`
when the fuel runs out. -/
def expandTokens (defs : Defs) : Nat → List String → List Token → Option (List Token)
  | 0, _, _ => none
  | fuel + 1, hide, ts =>
      ts.foldr
        (fun t acc =>
          appendOpt
            (match t with
             | .ident n =>
                 if n ∈ hide then some [t]
                 else
                   match lookupDef n defs with
                   | none => some [t]
                   | some body => expandTokens defs fuel (n :: hide) body
             | _ => some [t])
            acc)
        (some [])

/-- The number of definitions whose name is not hidden: a bound on how deep
replacements can still nest. -/
def remaining (defs : Defs) (hide : List String) : Nat :=
  ((defs.map Prod.fst).filter (fun n => decide (n ∉ hide))).length

/-- Replacement in a line of text.  A nested replacement hides one more defined
name, so one unit of fuel for each definition and one more is enough
(`expandLine_isSome`). -/
def expandLine (defs : Defs) (ts : List Token) : Option (List Token) :=
  expandTokens defs (defs.length + 1) [] ts

/-! ## Execution of directives -/

/-- An open conditional: whether its current group is processed, whether one of
its groups has been selected already, and whether its `#else` has been seen. -/
structure Frame where
  active : Bool
  taken : Bool
  seenElse : Bool
  deriving DecidableEq, Repr

/-- Whether the lines at this point are processed rather than skipped. -/
def isActive : List Frame → Bool
  | [] => true
  | f :: _ => f.active

/-- Opening a conditional whose condition has the value `cond`. -/
def openCond (cond : Bool) (stack : List Frame) : List Frame :=
  { active := isActive stack && cond, taken := cond, seenElse := false } :: stack

/-- The directive `#define n body`.  Defining a name again with the same
replacement list changes nothing; with another one, the redefinition is
diagnosed and the new definition replaces the old one. -/
def defineName (n : String) (body : List Token) (st : PPState) : PPState :=
  match lookupDef n st.defs with
  | none => { st with defs := (n, body) :: st.defs }
  | some old =>
      if old = body then st
      else report (.redefined n) { st with defs := (n, body) :: eraseDef n st.defs }

/-- The directive `#undef n`. -/
def undefName (n : String) (st : PPState) : PPState :=
  { st with defs := eraseDef n st.defs }

/-- A line of text: its tokens, after replacement, go to the compiler. -/
def emitText (ts : List Token) (st : PPState) : PPState :=
  match expandLine st.defs ts with
  | some out => { st with output := st.output ++ out }
  | none => report .expansionTooDeep st

/-- Processing one logical line. -/
def stepLine (ln : Line) (cfg : List Frame × PPState) : List Frame × PPState :=
  let stack := cfg.1
  let st := cfg.2
  match ln with
  | .ifndefLine n => (openCond (!isDefined n st.defs) stack, st)
  | .ifdefLine n => (openCond (isDefined n st.defs) stack, st)
  | .elseLine =>
      match stack with
      | [] => (stack, if isActive stack then report .strayElse st else st)
      | f :: rest =>
          if f.seenElse then (stack, if isActive rest then report .strayElse st else st)
          else ({ active := isActive rest && !f.taken, taken := true, seenElse := true } :: rest, st)
  | .endifLine =>
      match stack with
      | [] => (stack, report .strayEndif st)
      | _ :: rest => (rest, st)
  | .defineLine n body => (stack, if isActive stack then defineName n body st else st)
  | .undefLine n => (stack, if isActive stack then undefName n st else st)
  | .unsupported w => (stack, if isActive stack then report (.unsupported w) st else st)
  | .text ts => (stack, if isActive stack then emitText ts st else st)

/-- Processing logical lines in order. -/
def runLines : List Line → List Frame × PPState → List Frame × PPState
  | [], cfg => cfg
  | ln :: rest, cfg => runLines rest (stepLine ln cfg)

/-- Processing a whole file: its conditionals start closed and have to be
closed again at its end. -/
def preprocessFile (lines : List Line) (st : PPState) : PPState :=
  let final := runLines lines ([], st)
  if final.1 = [] then final.2 else report .unterminated final.2

/-- Processing the header, as `#include` does at the place of inclusion. -/
def includeHeader (st : PPState) : PPState :=
  preprocessFile headerLines st

/-- The state after the header has been processed with nothing defined
beforehand. -/
def included : PPState :=
  includeHeader PPState.empty

/-- What a reference to `WIFI_SSID` expands to after the header has been
processed. -/
def WIFI_SSID : Option (List Token) :=
  expandLine included.defs [.ident ssidName]

/-- What a reference to `WIFI_PASS` expands to after the header has been
processed. -/
def WIFI_PASS : Option (List Token) :=
  expandLine included.defs [.ident passName]

/-! ## Observations on the header -/

/-- Whether a replacement list is a single string literal. -/
def isStringValued (body : List Token) : Bool :=
  match body with
  | [.str _] => true
  | _ => false

/-- The names that the `#define` lines of a file define, in order. -/
def definedNames : List Line → List String
  | [] => []
  | .defineLine n _ :: rest => n :: definedNames rest
  | _ :: rest => definedNames rest

/-- The replacement lists that the `#define` lines of a file give to a name. -/
def definitionsOf (n : String) : List Line → List (List Token)
  | [] => []
  | .defineLine k body :: rest =>
      if k = n then body :: definitionsOf n rest else definitionsOf n rest
  | _ :: rest => definitionsOf n rest

/-- The tokens of the text lines of a file, the lines that are not directives. -/
def textTokens : List Line → List Token
  | [] => []
  | .text ts :: rest => ts ++ textTokens rest
  | _ :: rest => textTokens rest

theorem headerLines_eq :
    headerLines =
      [ .text [], .ifndefLine "_WIFI_CREDS_H_", .defineLine "_WIFI_CREDS_H_" [],
        .text [], .text [], .text [],
        .defineLine "WIFI_SSID" [.str "Your SSID"],
        .defineLine "WIFI_PASS" [.str "Your Password"],
        .text [], .text [], .endifLine ] := by
  decide

theorem lookupDef_eraseDef (m n : String) (defs : Defs) :
    lookupDef m (eraseDef n defs) = if m = n then none else lookupDef m defs := by
  induction defs with
  | nil => simp [eraseDef, lookupDef]
  | cons p rest ih =>
      obtain ⟨k, body⟩ := p
      by_cases hk : k = n
      · subst hk
        by_cases hm : m = k
        · subst hm
          simp [eraseDef, ih]
        · have hkm : ¬ k = m := fun e => hm e.symm
          simp [eraseDef, lookupDef, ih, hm, hkm]
      · by_cases hm : m = n
        · subst hm
          simp [eraseDef, lookupDef, ih, hk]
        · simp [eraseDef, lookupDef, ih, hk, hm]

theorem lookupDef_defineName (m n : String) (body : List Token) (st : PPState) :
    lookupDef m (defineName n body st).defs =
      if m = n then some body else lookupDef m st.defs := by
  unfold defineName
  cases hl : lookupDef n st.defs with
  | none =>
      by_cases hm : m = n
      · subst hm; simp [lookupDef]
      · have hnm : ¬ n = m := fun e => hm e.symm
        simp [lookupDef, hm, hnm]
  | some old =>
      by_cases ho : old = body
      · subst ho
        by_cases hm : m = n
        · subst hm; simp [hl]
        · simp [hm]
      · by_cases hm : m = n
        · subst hm; simp [ho, report, lookupDef]
        · have hnm : ¬ n = m := fun e => hm e.symm
          simp [ho, report, lookupDef, hm, hnm, lookupDef_eraseDef]

theorem output_defineName (n : String) (body : List Token) (st : PPState) :
    (defineName n body st).output = st.output := by
  unfold defineName
  cases lookupDef n st.defs with
  | none => rfl
  | some old =>
      by_cases ho : old = body
      · simp [ho]
      · simp [ho, report]

theorem emitText_nil (st : PPState) : emitText [] st = st := by
  simp [emitText, expandLine, expandTokens]

theorem includeHeader_of_defined (st : PPState)
    (h : isDefined guardName st.defs = true) : includeHeader st = st := by
  have h2 : isDefined "_WIFI_CREDS_H_" st.defs = true := h
  rw [includeHeader, headerLines_eq]
  simp [preprocessFile, runLines, stepLine, openCond, isActive, emitText_nil, h2]

theorem includeHeader_of_undefined (st : PPState)
    (h : isDefined guardName st.defs = false) :
    includeHeader st =
      defineName passName [.str "Your Password"]
        (defineName ssidName [.str "Your SSID"] (defineName guardName [] st)) := by
  have h2 : isDefined "_WIFI_CREDS_H_" st.defs = false := h
  rw [includeHeader, headerLines_eq]
  simp [preprocessFile, runLines, stepLine, openCond, isActive, emitText_nil, h2,
    passName, ssidName, guardName]

theorem appendOpt_assoc (a b c : Option (List Token)) :
    appendOpt (appendOpt a b) c = appendOpt a (appendOpt b c) := by
  cases a <;> cases b <;> cases c <;> simp [appendOpt]

theorem expandTokens_append (defs : Defs) (fuel : Nat) (hide : List String)
    (xs ys : List Token) :
    expandTokens defs (fuel + 1) hide (xs ++ ys) =
      appendOpt (expandTokens defs (fuel + 1) hide xs) (expandTokens defs (fuel + 1) hide ys) := by
  induction xs with
  | nil =>
      cases h : expandTokens defs (fuel + 1) hide ys <;>
        simp [expandTokens, appendOpt] at h ⊢ <;> simp [h]
  | cons x xs ih =>
      simp only [expandTokens, List.cons_append, List.foldr_cons] at ih ⊢
      rw [ih, appendOpt_assoc]

theorem expandTokens_ident (defs : Defs) (fuel : Nat) (n s : String)
    (h : lookupDef n defs = some [.str s]) :
    expandTokens defs (fuel + 2) [] [.ident n] = some [.str s] := by
  simp [expandTokens, h, appendOpt]

theorem length_of_lookupDef (n : String) (defs : Defs) (body : List Token)
    (h : lookupDef n defs = some body) : ∃ k, defs.length = k + 1 := by
  cases defs with
  | nil => simp [lookupDef] at h
  | cons p rest => exact ⟨rest.length, rfl⟩

theorem expandLine_reference (defs : Defs) (n s : String)
    (h : lookupDef n defs = some [.str s]) (pre post : List Token) :
    expandLine defs (pre ++ .ident n :: post) =
      appendOpt (expandLine defs pre) (appendOpt (some [.str s]) (expandLine defs post)) := by
  obtain ⟨k, hk⟩ := length_of_lookupDef n defs _ h
  unfold expandLine
  rw [hk, expandTokens_append]
  have hcons : (Token.ident n :: post) = [Token.ident n] ++ post := rfl
  rw [hcons, expandTokens_append, expandTokens_ident defs k n s h]

theorem mem_keys_of_lookupDef (n : String) (defs : Defs) (body : List Token)
    (h : lookupDef n defs = some body) : n ∈ defs.map Prod.fst := by
  induction defs with
  | nil => simp [lookupDef] at h
  | cons p rest ih =>
      obtain ⟨k, b⟩ := p
      by_cases hk : k = n
      · simp [hk]
      · simp only [lookupDef, hk, if_false] at h
        simp [ih h]

theorem remaining_cons_lt (defs : Defs) (hide : List String) (n : String)
    (body : List Token) (h : lookupDef n defs = some body) (hn : n ∉ hide) :
    remaining defs (n :: hide) < remaining defs hide := by
  have hsplit : (defs.map Prod.fst).filter (fun m => decide (m ∉ n :: hide)) =
      ((defs.map Prod.fst).filter (fun m => decide (m ∉ hide))).filter
        (fun m => decide (m ≠ n)) := by
    rw [List.filter_filter]
    congr 1
    funext m
    simp [not_or, and_comm]
  unfold remaining
  rw [hsplit, List.length_filter_lt_length_iff_exists]
  refine ⟨n, ?_, by simp⟩
  simp [List.mem_filter, mem_keys_of_lookupDef n defs body h, hn]

theorem expandTokens_isSome (defs : Defs) :
    ∀ (fuel : Nat) (hide : List String) (ts : List Token),
      remaining defs hide < fuel → (expandTokens defs fuel hide ts).isSome = true := by
  intro fuel
  induction fuel with
  | zero => intro hide ts h; exact absurd h (Nat.not_lt_zero _)
  | succ fuel ih =>
      intro hide ts h
      induction ts with
      | nil => simp [expandTokens]
      | cons t ts iht =>
          simp only [expandTokens, List.foldr_cons] at iht ⊢
          obtain ⟨rest, hrest⟩ := Option.isSome_iff_exists.mp iht
          rw [hrest]
          cases t with
          | ident n =>
              by_cases hn : n ∈ hide
              · simp [hn, appendOpt]
              · cases hl : lookupDef n defs with
                | none => simp [hn, hl, appendOpt]
                | some body =>
                    have hlt := remaining_cons_lt defs hide n body hl hn
                    obtain ⟨out, hout⟩ := Option.isSome_iff_exists.mp
                      (ih (n :: hide) body (by omega))
                    simp [hn, hl, hout, appendOpt]
          | str s => simp [appendOpt]
          | chr s => simp [appendOpt]
          | num s => simp [appendOpt]
          | punct c => simp [appendOpt]

theorem expandLine_isSome (defs : Defs) (ts : List Token) :
    (expandLine defs ts).isSome = true := by
  apply expandTokens_isSome
  have hle : remaining defs [] ≤ (defs.map Prod.fst).length :=
    List.length_filter_le _ _
  simp only [List.length_map] at hle
  omega

/-- C1: processing the header from a state in which `_WIFI_CREDS_H_` is not
defined defines `WIFI_SSID` and `WIFI_PASS`, each as a single string literal,
and the include guard `_WIFI_CREDS_H_` with an empty replacement list; these
three are the names its `#define` lines name and exactly the two constants
among them are string-valued; the definition of every other name is left as it
was; the header has no token outside its directives and hands nothing on to
the compiler, so it declares no function, variable or type. -/
theorem header_defines_exactly_two_string_constants (st : PPState)
    (h : isDefined guardName st.defs = false) :
    definedNames headerLines = [guardName, ssidName, passName]
    ∧ lookupDef guardName (includeHeader st).defs = some []
    ∧ lookupDef ssidName (includeHeader st).defs = some [.str "Your SSID"]
    ∧ lookupDef passName (includeHeader st).defs = some [.str "Your Password"]
    ∧ (definedNames headerLines).filter
        (fun n => match lookupDef n (includeHeader st).defs with
          | some body => isStringValued body
          | none => false) = [ssidName, passName]
    ∧ (∀ n, n ≠ guardName → n ≠ ssidName → n ≠ passName →
        lookupDef n (includeHeader st).defs = lookupDef n st.defs)
    ∧ textTokens headerLines = []
    ∧ (includeHeader st).output = st.output := by
  have hnames : definedNames headerLines = [guardName, ssidName, passName] := by
    rw [headerLines_eq]; rfl
  have hg : lookupDef guardName (includeHeader st).defs = some [] := by
    rw [includeHeader_of_undefined st h]
    simp [lookupDef_defineName, guardName, ssidName, passName]
  have hs : lookupDef ssidName (includeHeader st).defs = some [.str "Your SSID"] := by
    rw [includeHeader_of_undefined st h]
    simp [lookupDef_defineName, guardName, ssidName, passName]
  have hp : lookupDef passName (includeHeader st).defs = some [.str "Your Password"] := by
    rw [includeHeader_of_undefined st h]
    simp [lookupDef_defineName, guardName, ssidName, passName]
  refine ⟨hnames, hg, hs, hp, ?_, ?_, ?_, ?_⟩
  · rw [hnames]
    simp [List.filter, hg, hs, hp, isStringValued]
  · intro n h1 h2 h3
    rw [includeHeader_of_undefined st h]
    simp [lookupDef_defineName, h1, h2, h3]
  · rw [headerLines_eq]; rfl
  · rw [includeHeader_of_undefined st h]
    simp [output_defineName]

/-- Witness of C1 at the state in which nothing is defined. -/
theorem header_defines_exactly_two_string_constants_witness :
    isDefined guardName PPState.empty.defs = false
    ∧ lookupDef ssidName (includeHeader PPState.empty).defs = some [.str "Your SSID"]
    ∧ lookupDef passName (includeHeader PPState.empty).defs = some [.str "Your Password"] :=
  ⟨by decide,
   (header_defines_exactly_two_string_constants PPState.empty (by decide)).2.2.1,
   (header_defines_exactly_two_string_constants PPState.empty (by decide)).2.2.2.1⟩

/-- C2: both constants are non-empty.  Each is given one replacement list by
the header, a single string literal of length greater than zero, and after the
header has been processed from a state in which `_WIFI_CREDS_H_` is not
defined, a reference to `WIFI_SSID` and a reference to `WIFI_PASS` each expand
to a string literal of length greater than zero. -/
theorem credentials_nonempty (st : PPState)
    (h : isDefined guardName st.defs = false) :
    (∃ s, definitionsOf ssidName headerLines = [[.str s]]
        ∧ expandLine (includeHeader st).defs [.ident ssidName] = some [.str s]
        ∧ 0 < s.length)
    ∧ (∃ p, definitionsOf passName headerLines = [[.str p]]
        ∧ expandLine (includeHeader st).defs [.ident passName] = some [.str p]
        ∧ 0 < p.length) := by
  have hs : lookupDef ssidName (includeHeader st).defs = some [.str "Your SSID"] := by
    rw [includeHeader_of_undefined st h]
    simp [lookupDef_defineName, guardName, ssidName, passName]
  have hp : lookupDef passName (includeHeader st).defs = some [.str "Your Password"] := by
    rw [includeHeader_of_undefined st h]
    simp [lookupDef_defineName, guardName, ssidName, passName]
  constructor
  · refine ⟨"Your SSID", ?_, ?_, by decide⟩
    · rw [headerLines_eq]; decide
    · have e := expandLine_reference _ _ _ hs [] []
      simpa [expandLine, expandTokens, appendOpt] using e
  · refine ⟨"Your Password", ?_, ?_, by decide⟩
    · rw [headerLines_eq]; decide
    · have e := expandLine_reference _ _ _ hp [] []
      simpa [expandLine, expandTokens, appendOpt] using e

/-- Witness of C2 at the state in which nothing is defined. -/
theorem credentials_nonempty_witness :
    isDefined guardName PPState.empty.defs = false
    ∧ (∃ s, definitionsOf ssidName headerLines = [[.str s]]
        ∧ expandLine (includeHeader PPState.empty).defs [.ident ssidName] = some [.str s]
        ∧ 0 < s.length) :=
  ⟨by decide, (credentials_nonempty PPState.empty (by decide)).1⟩

/-- C3: the example copy holds the placeholder values.  The header gives
`WIFI_SSID` the replacement list made of the string literal `"Your SSID"` and
`WIFI_PASS` the one made of the string literal `"Your Password"`, and after the
header has been processed from a state in which `_WIFI_CREDS_H_` is not
defined, a reference to either name expands to exactly that literal (from the
state in which nothing is defined: `WIFI_SSID` and `WIFI_PASS`). -/
theorem example_copy_holds_placeholders (st : PPState)
    (h : isDefined guardName st.defs = false) :
    definitionsOf ssidName headerLines = [[.str "Your SSID"]]
    ∧ definitionsOf passName headerLines = [[.str "Your Password"]]
    ∧ expandLine (includeHeader st).defs [.ident ssidName] = some [.str "Your SSID"]
    ∧ expandLine (includeHeader st).defs [.ident passName] = some [.str "Your Password"]
    ∧ WIFI_SSID = some [.str "Your SSID"]
    ∧ WIFI_PASS = some [.str "Your Password"] := by
  have hs : lookupDef ssidName (includeHeader st).defs = some [.str "Your SSID"] := by
    rw [includeHeader_of_undefined st h]
    simp [lookupDef_defineName, guardName, ssidName, passName]
  have hp : lookupDef passName (includeHeader st).defs = some [.str "Your Password"] := by
    rw [includeHeader_of_undefined st h]
    simp [lookupDef_defineName, guardName, ssidName, passName]
  refine ⟨?_, ?_, ?_, ?_, by decide, by decide⟩
  · rw [headerLines_eq]; decide
  · rw [headerLines_eq]; decide
  · have e := expandLine_reference _ _ _ hs [] []
    simpa [expandLine, expandTokens, appendOpt] using e
  · have e := expandLine_reference _ _ _ hp [] []
    simpa [expandLine, expandTokens, appendOpt] using e

/-- Witness of C3 at a state in which an unrelated name is defined. -/
theorem example_copy_holds_placeholders_witness :
    isDefined guardName [("LED_PIN", [Token.num "2"])] = false
    ∧ expandLine
        (includeHeader { defs := [("LED_PIN", [.num "2"])], output := [], diags := [] }).defs
        [.ident passName] = some [.str "Your Password"] :=
  ⟨by decide,
   (example_copy_holds_placeholders
      { defs := [("LED_PIN", [.num "2"])], output := [], diags := [] } (by decide)).2.2.2.1⟩

/-- C6: inclusion is idempotent.  From a state in which `_WIFI_CREDS_H_` is
defined, processing the header leaves the whole state as it was: no definition
is added or changed, nothing is handed on to the compiler and no diagnostic,
in particular no redefinition, is issued.  Hence from every state, processing
the header twice in a row gives the state that processing it once gives. -/
theorem include_guard_idempotent (st : PPState) :
    (isDefined guardName st.defs = true → includeHeader st = st)
    ∧ includeHeader (includeHeader st) = includeHeader st := by
  refine ⟨includeHeader_of_defined st, ?_⟩
  cases h : isDefined guardName st.defs with
  | true => rw [includeHeader_of_defined st h, includeHeader_of_defined st h]
  | false =>
      apply includeHeader_of_defined
      rw [includeHeader_of_undefined st h]
      simp [isDefined, lookupDef_defineName, guardName, ssidName, passName]

/-- Witness of C6 at the state reached by a first inclusion, in which the guard
is defined. -/
theorem include_guard_idempotent_witness :
    isDefined guardName included.defs = true ∧ includeHeader included = included :=
  ⟨by decide, (include_guard_idempotent included).1 (by decide)⟩

end WifiCreds
